import Mathlib

/-!
Verification of the text-encoding and prediction core of an IMDB
sentiment-classification app (`src/app.py`), as a shallow embedding.

The embedded pieces are:
* the fixed constants `VOCAB_SIZE`, `MAXLEN`, `INDEX_OFFSET`;
* `encode_review`, which lowercases, whitespace-splits, maps each word
  through the vocabulary table with an offset and an unknown sentinel,
  prepends a start sentinel, and pads/truncates to a fixed length
  (via Keras `pad_sequences`, modelled with its default `padding='pre'`,
  `truncating='pre'`, `value=0` behaviour);
* `predict_review`, which thresholds the model's scalar probability at 0.5
  (the frozen network itself is abstracted as a function from the encoded
  sequence to a rational probability);
* the classify-button handler, which rejects inputs that strip to the
  empty string before any inference.
-/

/-- `VOCAB_SIZE = 10000` from `src/app.py`. -/
def VOCAB_SIZE : Nat := 10000

/-- `MAXLEN = 200` from `src/app.py`. -/
def MAXLEN : Nat := 200

/-- `INDEX_OFFSET = 3` from `src/app.py`. -/
def INDEX_OFFSET : Nat := 3

/-- The vocabulary table `word_index` (a Python dict from word to rank),
modelled as a partial map from words to natural-number ranks. -/
def WordIndex : Type := String → Option Nat

/-- Characters CPython's `str.split()` (no separator) treats as ASCII
whitespace: space, tab, newline, carriage return, vertical tab, form feed. -/
def pyIsSpace (c : Char) : Bool :=
  c == ' ' || c == '\t' || c == '\n' || c == '\r' ||
  c == '\x0b' || c == '\x0c'

/-- Word splitting of CPython `str.split()` with no separator: split on runs
of whitespace, producing no empty tokens.  `cur` accumulates the characters
of the word currently being read, in reverse. -/
def splitWords : List Char → List Char → List (List Char)
  | cur, [] => if cur.isEmpty then [] else [cur.reverse]
  | cur, c :: cs =>
    if pyIsSpace c then
      if cur.isEmpty then splitWords [] cs
      else cur.reverse :: splitWords [] cs
    else splitWords (c :: cur) cs

/-- `text.lower().split()` from `encode_review`: lowercase the characters,
then whitespace-split into words. -/
def pyWords (text : String) : List String :=
  (splitWords [] (text.data.map Char.toLower)).map fun cs => ⟨cs⟩

/-- The body of the per-word loop of `encode_review`: if the word is in the
table, take its rank plus `INDEX_OFFSET`, keeping it only when below
`VOCAB_SIZE` and emitting the unknown sentinel 2 otherwise; if the word is
absent, emit 2. -/
def encodeWord (word_index : WordIndex) (w : String) : Nat :=
  match word_index w with
  | some rank =>
    let idx := rank + INDEX_OFFSET
    if idx < VOCAB_SIZE then idx else 2
  | none => 2

/-- The `for word in words` loop of `encode_review`, which appends one code
per word, in order. -/
def encodeWords (word_index : WordIndex) : List String → List Nat
  | [] => []
  | w :: ws => encodeWord word_index w :: encodeWords word_index ws

/-- The `encoded` list of `encode_review` before padding: the start
sentinel 1 followed by the per-word codes. -/
def encodedTokens (word_index : WordIndex) (text : String) : List Nat :=
  1 :: encodeWords word_index (pyWords text)

/-- Keras `pad_sequences([xs], maxlen)` with its default arguments
(`padding='pre'`, `truncating='pre'`, `value=0`), on the single row:
when the row is at least `maxlen` long keep its last `maxlen` entries,
otherwise left-pad it with zeros up to `maxlen`. -/
def padSequence (maxlen : Nat) (xs : List Nat) : List Nat :=
  if maxlen ≤ xs.length then xs.drop (xs.length - maxlen)
  else List.replicate (maxlen - xs.length) 0 ++ xs

/-- `encode_review` from `src/app.py` (the single row of the returned
1×`MAXLEN` array). -/
def encode_review (word_index : WordIndex) (text : String) : List Nat :=
  padSequence MAXLEN (encodedTokens word_index text)

/-- `predict_review` from `src/app.py`.  The frozen network is abstracted
as `model`, a function from the encoded sequence to the scalar probability
`prob = model.predict(seq)[0][0]`; the label is `"Positive"` when
`prob >= 0.5` and `"Negative"` otherwise, and the probability is returned
unchanged alongside it. -/
def predict_review (model : List Nat → ℚ) (word_index : WordIndex)
    (text : String) : String × ℚ :=
  let seq := encode_review word_index text
  let prob := model seq
  let label := if prob ≥ 1/2 then "Positive" else "Negative"
  (label, prob)

/-- CPython `str.strip()` with no argument, restricted to ASCII whitespace:
drop whitespace characters from both ends. -/
def pyStrip (s : String) : String :=
  ⟨(((s.data.dropWhile pyIsSpace).reverse.dropWhile pyIsSpace).reverse)⟩

/-- What the classify-button handler renders. -/
inductive Rendered where
  | warn : Rendered
  | result : String → ℚ → Rendered
  deriving DecidableEq

/-- The `st.button("🔍 Classify Review")` handler from `src/app.py`:
if the input strips to length 0, show a warning and run no inference;
otherwise call `predict_review` on the raw input and render its label and
probability. -/
def classifyClick (model : List Nat → ℚ) (word_index : WordIndex)
    (user_input : String) : Rendered :=
  if (pyStrip user_input).data.length = 0 then .warn
  else
    let lp := predict_review model word_index user_input
    .result lp.1 lp.2

/-- The empty vocabulary table, used for concrete evaluations. -/
def emptyTable : WordIndex := fun _ => none

/-- The concrete four-word table of the spec's worked example:
`"the"→1, "film"→19, "was"→14, "great"→87`. -/
def exampleTable : WordIndex := fun w =>
  if w = "the" then some 1
  else if w = "film" then some 19
  else if w = "was" then some 14
  else if w = "great" then some 87
  else none

/-- A table holding a word whose rank is at or above the vocabulary
ceiling once offset, used for concrete evaluations. -/
def bigRankTable : WordIndex := fun w =>
  if w = "rare" then some 99999 else none

/-- A concrete input of 200 whitespace-separated words (each the single
letter `x`), long enough to force left-truncation. -/
def longInput : String := ⟨(List.replicate 200 ['x', ' ']).flatten⟩

-- Sanity examples (concrete evaluations of the embedding).
example : pyWords "the film was great" = ["the", "film", "was", "great"] := by
  decide
example : pyWords "" = [] := by decide
example : pyWords " \t\n " = [] := by decide
example : encodeWord exampleTable "the" = 4 := by decide
example : encodeWord exampleTable "zzz" = 2 := by decide
example : encodeWord bigRankTable "rare" = 2 := by decide

/-! ## Helper lemmas -/

/-- The encoding loop emits exactly `encodeWord` per word, in order. -/
theorem encodeWords_eq_map (tbl : WordIndex) (ws : List String) :
    encodeWords tbl ws = ws.map (encodeWord tbl) := by
  induction ws with
  | nil => rfl
  | cons w ws ih => simp [encodeWords, ih]

/-- `padSequence` always returns a list of length `maxlen`. -/
theorem padSequence_length (m : Nat) (xs : List Nat) :
    (padSequence m xs).length = m := by
  unfold padSequence
  split
  · next h => simp [Nat.sub_sub_self h]
  · next h => simp; omega

/-- When the row fits, `padSequence` left-pads with zeros. -/
theorem padSequence_of_le {m : Nat} {xs : List Nat} (h : xs.length ≤ m) :
    padSequence m xs = List.replicate (m - xs.length) 0 ++ xs := by
  unfold padSequence
  split
  · next h2 =>
    have : xs.length = m := Nat.le_antisymm h h2
    simp [this]
  · rfl

/-- When the row is longer than `maxlen`, `padSequence` drops the
earliest entries. -/
theorem padSequence_of_lt {m : Nat} {xs : List Nat} (h : m < xs.length) :
    padSequence m xs = xs.drop (xs.length - m) := by
  unfold padSequence
  rw [if_pos (Nat.le_of_lt h)]

/-- Every entry of `padSequence m xs` is a pad zero or an entry of `xs`. -/
theorem mem_padSequence {m : Nat} {xs : List Nat} {x : Nat}
    (h : x ∈ padSequence m xs) : x = 0 ∨ x ∈ xs := by
  unfold padSequence at h
  split at h
  · exact Or.inr (List.drop_subset _ _ h)
  · rcases List.mem_append.mp h with h0 | hx
    · exact Or.inl (List.eq_of_mem_replicate h0)
    · exact Or.inr hx

/-- Dropping leading zeros skips any zero left-padding. -/
theorem dropWhile_replicate_zero (n : Nat) (l : List Nat) :
    ((List.replicate n 0 ++ l).dropWhile fun x => x == 0) =
      l.dropWhile fun x => x == 0 := by
  induction n with
  | zero => rfl
  | succ n ih => simp [List.replicate_succ, List.dropWhile, ih]

/-- Lowercasing preserves the whitespace characters. -/
theorem toLower_of_space {c : Char} (h : pyIsSpace c = true) :
    c.toLower = c := by
  simp [pyIsSpace] at h
  rcases h with ((((h | h) | h) | h) | h) | h <;> subst h <;> decide

/-- Splitting a run of pure whitespace yields no words. -/
theorem splitWords_all_space {cs : List Char}
    (h : ∀ c ∈ cs, pyIsSpace c = true) : splitWords [] cs = [] := by
  induction cs with
  | nil => rfl
  | cons c cs ih =>
    have hc : pyIsSpace c = true := h c (List.mem_cons_self c cs)
    simp only [splitWords, hc, if_true, List.isEmpty_nil]
    exact ih fun d hd => h d (List.mem_cons_of_mem c hd)

/-- With positive ranks, every per-word code is below the vocabulary
ceiling and never equal to the offset 3. -/
theorem encodeWord_range {tbl : WordIndex}
    (hpos : ∀ w r, tbl w = some r → 1 ≤ r) (w : String) :
    encodeWord tbl w < VOCAB_SIZE ∧ encodeWord tbl w ≠ 3 := by
  unfold encodeWord
  cases htbl : tbl w with
  | none => exact ⟨by decide, by decide⟩
  | some r =>
    have hr := hpos w r htbl
    simp only [VOCAB_SIZE, INDEX_OFFSET]
    split
    · next hlt => exact ⟨hlt, by omega⟩
    · exact ⟨by decide, by decide⟩

/-! ## Claim theorems -/

/-- C1: For every word token processed by `encode_review`, in order: a word
present in the table with `rank + 3 < 10000` encodes to `rank + 3`; a word
present with `rank + 3 ≥ 10000` encodes to the unknown sentinel 2; a word
absent from the table encodes to the unknown sentinel 2. -/
theorem encode_review_per_word_spec (tbl : WordIndex) (text : String) :
    encodedTokens tbl text = 1 :: (pyWords text).map (encodeWord tbl) ∧
    (∀ w r, tbl w = some r → r + INDEX_OFFSET < VOCAB_SIZE →
      encodeWord tbl w = r + INDEX_OFFSET) ∧
    (∀ w r, tbl w = some r → VOCAB_SIZE ≤ r + INDEX_OFFSET →
      encodeWord tbl w = 2) ∧
    (∀ w, tbl w = none → encodeWord tbl w = 2) := by
  refine ⟨?_, ?_, ?_, ?_⟩
  · unfold encodedTokens
    rw [encodeWords_eq_map]
  · intro w r hw hlt
    simp [encodeWord, hw, hlt]
  · intro w r hw hge
    simp [encodeWord, hw, Nat.not_lt.mpr hge]
  · intro w hw
    simp [encodeWord, hw]

/-- Witness for C1 at concrete tables and words: an in-vocabulary word with
small rank, an in-vocabulary word with offset rank at or over the ceiling,
and an out-of-vocabulary word. -/
theorem encode_review_per_word_spec_witness :
    encodeWord exampleTable "the" = 1 + INDEX_OFFSET ∧
    encodeWord bigRankTable "rare" = 2 ∧
    encodeWord emptyTable "the" = 2 :=
  ⟨(encode_review_per_word_spec exampleTable "").2.1 "the" 1
      (by decide) (by decide),
   (encode_review_per_word_spec bigRankTable "").2.2.1 "rare" 99999
      (by decide) (by decide),
   (encode_review_per_word_spec emptyTable "").2.2.2 "the" rfl⟩

/-- C2: For every input, `encode_review` returns a sequence of length
exactly `MAXLEN` = 200, obtained by left-padding the token sequence with 0
when shorter and by dropping the earliest tokens when longer. -/
theorem encode_review_fixed_length (tbl : WordIndex) (text : String) :
    (encode_review tbl text).length = MAXLEN ∧
    ((encodedTokens tbl text).length ≤ MAXLEN →
      encode_review tbl text =
        List.replicate (MAXLEN - (encodedTokens tbl text).length) 0 ++
          encodedTokens tbl text) ∧
    (MAXLEN < (encodedTokens tbl text).length →
      encode_review tbl text =
        (encodedTokens tbl text).drop
          ((encodedTokens tbl text).length - MAXLEN)) := by
  refine ⟨padSequence_length MAXLEN _, ?_, ?_⟩
  · intro h
    exact padSequence_of_le h
  · intro h
    exact padSequence_of_lt h

set_option maxRecDepth 40000 in
/-- Witness for C2 at a concrete short input and a concrete long input. -/
theorem encode_review_fixed_length_witness :
    encode_review emptyTable "hi" =
      List.replicate (MAXLEN - (encodedTokens emptyTable "hi").length) 0 ++
        encodedTokens emptyTable "hi" ∧
    encode_review emptyTable longInput =
      (encodedTokens emptyTable longInput).drop
        ((encodedTokens emptyTable longInput).length - MAXLEN) :=
  ⟨(encode_review_fixed_length emptyTable "hi").2.1 (by decide),
   (encode_review_fixed_length emptyTable longInput).2.2 (by decide)⟩

set_option maxRecDepth 40000 in
/-- C3, counterexample: on a 200-word input the leading start sentinel is
truncated away, so the first non-pad entry of the output is not 1 (here
every entry is the unknown sentinel 2).
Proved by direct evaluation. -/
theorem encode_review_start_sentinel_cex :
    ((encode_review emptyTable longInput).dropWhile
        fun x => x == 0).head? ≠ some 1 := by
  decide

/-- C3, amended: whenever the token sequence (start sentinel plus one code
per word, i.e. at most 199 words) fits within `MAXLEN`, the first non-pad
entry of the sequence returned by `encode_review` is the start sentinel 1. -/
theorem encode_review_start_sentinel_of_short (tbl : WordIndex)
    (text : String) (h : (encodedTokens tbl text).length ≤ MAXLEN) :
    ((encode_review tbl text).dropWhile fun x => x == 0).head? = some 1 := by
  unfold encode_review
  rw [padSequence_of_le h, dropWhile_replicate_zero]
  rfl

/-- Witness for the amended C3 at a concrete short input. -/
theorem encode_review_start_sentinel_of_short_witness :
    ((encode_review emptyTable "hello").dropWhile
        fun x => x == 0).head? = some 1 :=
  encode_review_start_sentinel_of_short emptyTable "hello" (by decide)

/-- C4: `predict_review` labels the model's probability `p` as
`"Positive"` exactly when `p ≥ 0.5` (the boundary 0.5 included) and as
`"Negative"` when `p < 0.5`, and returns `p` itself unchanged alongside
the label. -/
theorem predict_review_threshold (model : List Nat → ℚ) (tbl : WordIndex)
    (text : String) :
    (1/2 ≤ model (encode_review tbl text) →
      predict_review model tbl text =
        ("Positive", model (encode_review tbl text))) ∧
    (model (encode_review tbl text) < 1/2 →
      predict_review model tbl text =
        ("Negative", model (encode_review tbl text))) := by
  constructor
  · intro h
    simp only [predict_review]
    rw [if_pos h]
  · intro h
    simp only [predict_review]
    rw [if_neg (not_le.mpr h)]

/-- Witness for C4 at the boundary: a constant model giving exactly 0.5 is
labelled Positive, one giving 0.4999 is labelled Negative. -/
theorem predict_review_threshold_witness :
    predict_review (fun _ => (1 : ℚ)/2) emptyTable "ok" =
      ("Positive", (1 : ℚ)/2) ∧
    predict_review (fun _ => (4999 : ℚ)/10000) emptyTable "ok" =
      ("Negative", (4999 : ℚ)/10000) :=
  ⟨(predict_review_threshold (fun _ => (1 : ℚ)/2) emptyTable "ok").1
      (by norm_num),
   (predict_review_threshold (fun _ => (4999 : ℚ)/10000) emptyTable "ok").2
      (by norm_num)⟩

/-- C5: encoding the empty string yields a length-200 sequence: 199 pad
zeros followed by the lone start sentinel 1, for any vocabulary table. -/
theorem encode_review_empty_string (tbl : WordIndex) :
    encode_review tbl "" = List.replicate (MAXLEN - 1) 0 ++ [1] ∧
    (encode_review tbl "").length = MAXLEN :=
  ⟨rfl, rfl⟩

set_option maxRecDepth 40000 in
/-- C6: encoding `"the film was great"` against the example table yields
the token sequence `[1, 4, 22, 17, 90]` before padding, and the final
output is that sequence left-padded with zeros to length 200. -/
theorem encode_review_worked_example :
    encodedTokens exampleTable "the film was great" = [1, 4, 22, 17, 90] ∧
    encode_review exampleTable "the film was great" =
      List.replicate (MAXLEN - 5) 0 ++ [1, 4, 22, 17, 90] := by
  constructor <;> decide

/-- C7: `encode_review` is deterministic — two runs on the identical input
string with the identical vocabulary table produce identical outputs. -/
theorem encode_review_deterministic (tbl₁ tbl₂ : WordIndex)
    (t₁ t₂ : String) (htbl : tbl₁ = tbl₂) (ht : t₁ = t₂) :
    encode_review tbl₁ t₁ = encode_review tbl₂ t₂ := by
  rw [htbl, ht]

/-- Witness for C7 at a concrete repeated run. -/
theorem encode_review_deterministic_witness :
    encode_review emptyTable "same input" =
      encode_review emptyTable "same input" :=
  encode_review_deterministic emptyTable emptyTable
    "same input" "same input" rfl rfl

/-- C8: the classify-button handler shows a warning and performs no
inference when the input strips to length 0, and calls `predict_review`
(rendering its label and probability) exactly when the stripped input is
non-empty. -/
theorem classifyClick_rejects_blank (model : List Nat → ℚ)
    (tbl : WordIndex) (input : String) :
    ((pyStrip input).data.length = 0 →
      classifyClick model tbl input = Rendered.warn) ∧
    ((pyStrip input).data.length ≠ 0 →
      classifyClick model tbl input =
        Rendered.result (predict_review model tbl input).1
          (predict_review model tbl input).2) := by
  constructor
  · intro h
    simp only [classifyClick]
    rw [if_pos h]
  · intro h
    simp only [classifyClick]
    rw [if_neg h]

/-- Witness for C8: a whitespace-only input warns; a real input renders
the prediction. -/
theorem classifyClick_rejects_blank_witness :
    classifyClick (fun _ => (1 : ℚ)/2) emptyTable "   " = Rendered.warn ∧
    classifyClick (fun _ => (1 : ℚ)/2) emptyTable "fine movie" =
      Rendered.result
        (predict_review (fun _ => (1 : ℚ)/2) emptyTable "fine movie").1
        (predict_review (fun _ => (1 : ℚ)/2) emptyTable "fine movie").2 :=
  ⟨(classifyClick_rejects_blank (fun _ => (1 : ℚ)/2) emptyTable "   ").1
      (by decide),
   (classifyClick_rejects_blank (fun _ => (1 : ℚ)/2) emptyTable
      "fine movie").2 (by decide)⟩

/-- C9: over any table with positive ranks, every entry of the sequence
returned by `encode_review` is below the vocabulary ceiling 10000 and is
never 3, so every entry is a valid embedding index. -/
theorem encode_review_entries_in_range (tbl : WordIndex) (text : String)
    (hpos : ∀ w r, tbl w = some r → 1 ≤ r) :
    ∀ x ∈ encode_review tbl text, x < VOCAB_SIZE ∧ x ≠ 3 := by
  intro x hx
  unfold encode_review at hx
  rcases mem_padSequence hx with rfl | hx'
  · exact ⟨by decide, by decide⟩
  · unfold encodedTokens at hx'
    rcases List.mem_cons.mp hx' with rfl | hx2
    · exact ⟨by decide, by decide⟩
    · rw [encodeWords_eq_map] at hx2
      rcases List.mem_map.mp hx2 with ⟨w, _, rfl⟩
      exact encodeWord_range hpos w

/-- Witness for C9: the unknown sentinel 2, an actual entry of a concrete
encoded review, is in range and differs from 3. -/
theorem encode_review_entries_in_range_witness :
    (2 : Nat) < VOCAB_SIZE ∧ (2 : Nat) ≠ 3 :=
  encode_review_entries_in_range emptyTable "a"
    (fun _ _ h => Option.noConfusion h) 2 (by decide)

/-- C10: a whitespace-only input splits into no tokens, so it encodes to
exactly the same sequence as the empty string: 199 pad zeros followed by
the start sentinel 1. -/
theorem encode_review_whitespace_only (tbl : WordIndex) (s : String)
    (h : ∀ c ∈ s.data, pyIsSpace c = true) :
    encode_review tbl s = encode_review tbl "" ∧
    encode_review tbl s = List.replicate (MAXLEN - 1) 0 ++ [1] := by
  have hwords : pyWords s = [] := by
    unfold pyWords
    have hall : ∀ c ∈ s.data.map Char.toLower, pyIsSpace c = true := by
      intro c hc
      rcases List.mem_map.mp hc with ⟨d, hd, rfl⟩
      rw [toLower_of_space (h d hd)]
      exact h d hd
    rw [splitWords_all_space hall]
    rfl
  have hs : encode_review tbl s = List.replicate (MAXLEN - 1) 0 ++ [1] := by
    unfold encode_review encodedTokens
    rw [hwords]
    rfl
  refine ⟨?_, hs⟩
  rw [hs]
  rfl

/-- Witness for C10 at a concrete whitespace-only input. -/
theorem encode_review_whitespace_only_witness :
    encode_review emptyTable " \t\n " = encode_review emptyTable "" ∧
    encode_review emptyTable " \t\n " =
      List.replicate (MAXLEN - 1) 0 ++ [1] :=
  encode_review_whitespace_only emptyTable " \t\n " (by decide)
